import Mathlib

/-!
Shallow embedding of the arena-allocation layer of mimalloc (src/arena.c):
the memory-id codec, the per-arena bitmap block allocator, the arena
registry, the free router, and the huge-page reservation drivers.
Machine integers (size_t) are modelled as Nat with explicit reduction
modulo 2^64 where C overflow semantics matter.
-/

namespace MimallocArena

/-- Width of a size_t value: all size_t arithmetic is modulo this. -/
def sizeMod : Nat := 2 ^ 64

/-- Modelled from the spec: MI_SEGMENT_SIZE comes from mimalloc-internal.h which
is not under src; arena.c fixes MI_ARENA_BLOCK_SIZE = 8 * MI_SEGMENT_ALIGN and
comments that this is 32MiB, so the segment size is 4MiB. -/
def MI_SEGMENT_SIZE : Nat := 4 * 1024 * 1024

def MI_SEGMENT_ALIGN : Nat := MI_SEGMENT_SIZE

def MI_ARENA_BLOCK_SIZE : Nat := 8 * MI_SEGMENT_ALIGN

/-- Modelled from the spec: MI_BITMAP_FIELD_BITS comes from bitmap.inc.c which is
not under src; a bitmap field is one uintptr_t, 64 bits (arena.c comments:
at most blocks of 2GiB = 64 * 32MiB per field). -/
def MI_BITMAP_FIELD_BITS : Nat := 64

def MI_ARENA_MAX_OBJ_SIZE : Nat := MI_BITMAP_FIELD_BITS * MI_ARENA_BLOCK_SIZE

def MI_ARENA_MIN_OBJ_SIZE : Nat := MI_ARENA_BLOCK_SIZE / 2

def MI_MAX_ARENAS : Nat := 64

/-- Special memory id for direct OS allocated memory. -/
def MI_MEMID_OS : Nat := 0

/-- Modelled from the spec: _mi_divide_up from mimalloc-internal.h (not under
src), the usual round-up division. -/
def _mi_divide_up (n d : Nat) : Nat := (n + d - 1) / d

/-- mi_memid_create from arena.c: ((bitmap_index << 8) | ((arena_index+1) & 0xFF))
in size_t arithmetic. -/
def mi_memid_create (arena_index bitmap_index : Nat) : Nat :=
  ((bitmap_index <<< 8) % sizeMod) ||| (((arena_index + 1) % sizeMod) &&& 0xFF)

/-- mi_memid_indices from arena.c: arena_index = (memid & 0xFF) - 1 (size_t
wrapping subtraction), bitmap_index = memid >> 8. -/
def mi_memid_indices (memid : Nat) : Nat × Nat :=
  (((memid &&& 0xFF) + (sizeMod - 1)) % sizeMod, memid >>> 8)

/-- mi_block_count_of_size from arena.c. -/
def mi_block_count_of_size (size : Nat) : Nat :=
  _mi_divide_up size MI_ARENA_BLOCK_SIZE

end MimallocArena

namespace MimallocArena

/-- Modelled from the spec: the bitmap index encoding of bitmap.inc.c (not under
src) packs a field index and a bit offset within the field into one integer. -/
def mi_bitmap_index_create (idx bitidx : Nat) : Nat :=
  idx * MI_BITMAP_FIELD_BITS + bitidx

/-- Modelled from the spec: field index component of a bitmap index. -/
def mi_bitmap_index_field (bitmap_idx : Nat) : Nat :=
  bitmap_idx / MI_BITMAP_FIELD_BITS

/-- Modelled from the spec: bit offset (within its field) component of a bitmap
index. -/
def mi_bitmap_index_bit_in_field (bitmap_idx : Nat) : Nat :=
  bitmap_idx % MI_BITMAP_FIELD_BITS

/-- Modelled from the spec: absolute bit number of a bitmap index. -/
def mi_bitmap_index_bit (bitmap_idx : Nat) : Nat := bitmap_idx

/-- Modelled from the spec: the mask of count consecutive bits starting at
bitidx inside one 64-bit bitmap field (bitmap.inc.c, not under src). -/
def mi_bitmap_mask (count bitidx : Nat) : Nat :=
  (((1 <<< count) - 1) <<< bitidx) % sizeMod

/-- Modelled from the spec: unclaim(field, run_length, position) clears the run
of bits and reports whether every one of those bits was set beforehand
(bitmap.inc.c, not under src). Returns (was_previously_all_one, new bitmap). -/
def mi_bitmap_unclaim (bitmap : List Nat) (field_count count bitmap_idx : Nat) :
    Bool × List Nat :=
  let fidx := mi_bitmap_index_field bitmap_idx
  let bidx := mi_bitmap_index_bit_in_field bitmap_idx
  let field := bitmap.getD fidx 0
  let mask := mi_bitmap_mask count bidx
  ((field &&& mask) == mask, bitmap.set fidx (field &&& (mask ^^^ (sizeMod - 1))))

/-- Modelled from the spec: claim(field, run_length, position) sets the run of
bits and reports whether every one of those bits was zero beforehand
(bitmap.inc.c, not under src). Returns (was_previously_all_zero, new bitmap). -/
def mi_bitmap_claim (bitmap : List Nat) (field_count count bitmap_idx : Nat) :
    Bool × List Nat :=
  let fidx := mi_bitmap_index_field bitmap_idx
  let bidx := mi_bitmap_index_bit_in_field bitmap_idx
  let field := bitmap.getD fidx 0
  let mask := mi_bitmap_mask count bidx
  ((field &&& mask) == 0, bitmap.set fidx (field ||| mask))

/-- Modelled from the spec: try_claim on one field attempts an atomic claim of
count contiguous free bits within the 64-bit field, scanning from the low end,
and returns the bit offset of the first free run on success (bitmap.inc.c, not
under src). A failed attempt leaves the field unchanged. -/
def mi_bitmap_try_find_claim_bit (field count : Nat) : Option Nat :=
  (List.range (MI_BITMAP_FIELD_BITS - count + 1)).find?
    (fun o => (field &&& mi_bitmap_mask count o) == 0)

/-- A memory arena descriptor (mi_arena_t from arena.c). The start address is
abstracted as a natural number. -/
structure Arena where
  start : Nat
  block_count : Nat
  field_count : Nat
  numa_node : Int
  is_zero_init : Bool
  is_large : Bool
  search_idx : Nat
  blocks_dirty : List Nat
  blocks_map : List Nat
deriving Repr, DecidableEq

/-- The loop body of mi_arena_alloc from arena.c: visit up to fuel fields
starting at idx, wrapping to 0 whenever idx reaches fcount, and try-claim
count contiguous bits in each visited field. Returns
(bitmap index, claimed field index, updated bitmap) on first success. -/
def mi_arena_alloc_go (bitmap : List Nat) (fcount count : Nat) :
    Nat → Nat → Option (Nat × Nat × List Nat)
  | _, 0 => none
  | idx, fuel + 1 =>
    let idx := if fcount ≤ idx then 0 else idx
    let field := bitmap.getD idx 0
    match mi_bitmap_try_find_claim_bit field count with
    | some o =>
        some (mi_bitmap_index_create idx o, idx,
              bitmap.set idx (field ||| mi_bitmap_mask count o))
    | none => mi_arena_alloc_go bitmap fcount count (idx + 1) fuel

/-- mi_arena_alloc from arena.c: scan the field_count bitmap fields starting at
search_idx, visiting each at most once; on success store the successful field
index back into search_idx and return the claimed bitmap index. -/
def mi_arena_alloc (arena : Arena) (blocks : Nat) : Option (Nat × Arena) :=
  match mi_arena_alloc_go arena.blocks_map arena.field_count blocks
      arena.search_idx arena.field_count with
  | some (bitmap_idx, idx, bitmap) =>
      some (bitmap_idx,
            { arena with blocks_map := bitmap, search_idx := idx })
  | none => none

/-- Outcome of a call to _mi_arena_free, tagging which exit the control flow
took. oobRead records that the code indexed the 64-slot mi_arenas array with
an index that is not below MI_MAX_ARENAS (the source performs this read with
no runtime bound check, only a debug assertion). -/
inductive FreeOutcome where
  | noop
  | osFree
  | oobRead
  | fatalNoArena
  | fatalBadField
  | fatalDoubleFree
  | freed
deriving Repr, DecidableEq

/-- _mi_arena_free from arena.c, over the registry slots. The pointer argument
is abstracted to whether it is NULL. Returns the outcome and the updated
registry slots. -/
def _mi_arena_free (slots : List (Option Arena)) (p_is_null : Bool)
    (size memid : Nat) : FreeOutcome × List (Option Arena) :=
  if p_is_null then (.noop, slots)
  else if size = 0 then (.noop, slots)
  else if memid = MI_MEMID_OS then (.osFree, slots)
  else
    let arena_idx := (mi_memid_indices memid).1
    let bitmap_idx := (mi_memid_indices memid).2
    if arena_idx < MI_MAX_ARENAS then
      match slots.getD arena_idx none with
      | none => (.fatalNoArena, slots)
      | some arena =>
        if arena.field_count ≤ mi_bitmap_index_field bitmap_idx then
          (.fatalBadField, slots)
        else
          let blocks := mi_block_count_of_size size
          let r := mi_bitmap_unclaim arena.blocks_map arena.field_count
                     blocks bitmap_idx
          let slots1 := slots.set arena_idx
                          (some { arena with blocks_map := r.2 })
          if r.1 then (.freed, slots1) else (.fatalDoubleFree, slots1)
    else (.oobRead, slots)

end MimallocArena

namespace MimallocArena

/-- Result record of _mi_arena_alloc_aligned: the returned pointer, the output
flags, the memory id, the updated registry slots, and two control-flow tags:
whether the arena eligibility gate was entered and whether the OS fallback
allocator was invoked. -/
structure AAResult where
  ptr : Option Nat
  commit : Bool
  large : Bool
  is_zero : Bool
  memid : Nat
  attempted_arena : Bool
  os_called : Bool
  slots : List (Option Arena)
deriving Repr, DecidableEq

/-- mi_arena_alloc_from from arena.c: try to claim needed_bcount blocks in one
arena; on success claim the dirty bits, build the memory id, and report
(pointer, is_zero, large, memid, updated arena). commit is set to true by the
caller of this record. -/
def mi_arena_alloc_from (arena : Arena) (arena_index needed_bcount : Nat) :
    Option (Nat × Bool × Bool × Nat × Arena) :=
  match mi_arena_alloc arena needed_bcount with
  | none => none
  | some (bitmap_index, arena1) =>
    let c := mi_bitmap_claim arena1.blocks_dirty arena1.field_count
               needed_bcount bitmap_index
    some (arena1.start + mi_bitmap_index_bit bitmap_index * MI_ARENA_BLOCK_SIZE,
          c.1, arena1.is_large, mi_memid_create arena_index bitmap_index,
          { arena1 with blocks_dirty := c.2 })

/-- One scan pass of _mi_arena_alloc_aligned over the registry slots, stopping
at the first empty slot. numa_match selects the pass-1 predicate (numa local
or any) versus the pass-2 predicate (explicitly non-local). -/
def arena_pass (slots : List (Option Arena)) (numa_node : Int)
    (numa_match : Bool) (large : Bool) (bcount : Nat) :
    Nat → Nat → Option (Nat × (Nat × Bool × Bool × Nat × Arena))
  | _, 0 => none
  | i, fuel + 1 =>
    match slots.getD i none with
    | none => none
    | some arena =>
      let ok := (if numa_match then
                   (decide (arena.numa_node < 0) || (arena.numa_node == numa_node))
                 else
                   (decide (0 ≤ arena.numa_node) && (arena.numa_node != numa_node))) &&
                (large || !arena.is_large)
      if ok then
        match mi_arena_alloc_from arena i bcount with
        | some r => some (i, r)
        | none => arena_pass slots numa_node numa_match large bcount (i + 1) fuel
      else arena_pass slots numa_node numa_match large bcount (i + 1) fuel

/-- _mi_arena_alloc_aligned from arena.c. The OS allocator is abstracted by
os_ptr (the pointer it would return); numa_node is the current node of the
caller; opt_large_os_pages is the global option mi_option_large_os_pages; a
NULL large pointer argument is modelled by large_arg = none (replaced by a
default false flag, as in the source). -/
def _mi_arena_alloc_aligned (slots : List (Option Arena)) (numa_node : Int)
    (opt_large_os_pages : Bool) (os_ptr : Option Nat)
    (size alignment : Nat) (commit : Bool) (large_arg : Option Bool) : AAResult :=
  let large := large_arg.getD false
  let eligible := decide (alignment ≤ MI_SEGMENT_ALIGN) &&
                  decide (size ≤ MI_ARENA_MAX_OBJ_SIZE) &&
                  decide (MI_ARENA_MIN_OBJ_SIZE ≤ size)
  let osres : AAResult :=
    { ptr := os_ptr, commit := commit,
      large := if large then opt_large_os_pages else large,
      is_zero := true, memid := MI_MEMID_OS,
      attempted_arena := eligible, os_called := true, slots := slots }
  if eligible then
    let bcount := mi_block_count_of_size size
    match arena_pass slots numa_node true large bcount 0 MI_MAX_ARENAS with
    | some (i, (p, is_zero, lg, memid, arena1)) =>
      { ptr := some p, commit := true, large := lg, is_zero := is_zero,
        memid := memid, attempted_arena := true, os_called := false,
        slots := slots.set i (some arena1) }
    | none =>
      match arena_pass slots numa_node false large bcount 0 MI_MAX_ARENAS with
      | some (i, (p, is_zero, lg, memid, arena1)) =>
        { ptr := some p, commit := true, large := lg, is_zero := is_zero,
          memid := memid, attempted_arena := true, os_called := false,
          slots := slots.set i (some arena1) }
      | none => osres
  else osres

/-- The arena registry: the atomic slot counter mi_arena_count and the 64-slot
array mi_arenas. -/
structure RegState where
  count : Nat
  slots : List (Option Arena)
deriving Repr, DecidableEq

/-- mi_arena_add from arena.c. The atomic fetch-and-add reserves the previous
value of mi_arena_count as the slot index; the registry invariants (slots are
filled from index 0 in increasing order) fix this return convention of the
atomic primitive from mimalloc-atomic.h, which is not under src. -/
def mi_arena_add (reg : RegState) (arena : Arena) : Bool × RegState :=
  let i := reg.count
  let reg1 : RegState := { reg with count := reg.count + 1 }
  if MI_MAX_ARENAS ≤ i then
    (false, { reg1 with count := reg1.count - 1 })
  else
    (true, { reg1 with slots := reg1.slots.set i (some arena) })

/-- Outcome of _mi_os_alloc_huge_os_pages, abstracted: the pointer (none for
failure), the number of pages actually reserved, and the byte size of the
reservation. -/
structure HugeOsAlloc where
  p : Option Nat
  pages_reserved : Nat
  hsize : Nat
deriving Repr, DecidableEq

/-- Result record of mi_reserve_huge_os_pages_at: the returned error code, the
updated registry, the arguments of the _mi_os_free_huge_pages call if one was
made, the arena descriptor that was built (if any), and whether the registry
publish succeeded. -/
structure ReserveResult where
  err : Nat
  reg : RegState
  freed_huge : Option (Nat × Nat)
  arena_built : Option Arena
  added : Bool
deriving Repr, DecidableEq

def ENOMEM : Nat := 12

/-- mi_reserve_huge_os_pages_at from arena.c. The OS huge-page reservation is
abstracted by osHuge, the OS allocation of the descriptor storage by
descAllocOk (the descriptor memory is zero initialized by _mi_os_alloc, hence
the zero bitmaps), and _mi_os_numa_node_count by numa_node_count. -/
def mi_reserve_huge_os_pages_at (osHuge : HugeOsAlloc) (descAllocOk : Bool)
    (numa_node_count : Nat) (reg : RegState)
    (pages : Nat) (numa_node : Int) (timeout_msecs : Nat) : ReserveResult :=
  if pages = 0 then ⟨0, reg, none, none, false⟩
  else
    let numa_node := if numa_node < -1 then -1 else numa_node
    let numa_node := if 0 ≤ numa_node then numa_node % (numa_node_count : Int)
                     else numa_node
    match osHuge.p with
    | none => ⟨ENOMEM, reg, none, none, false⟩
    | some p =>
      if osHuge.pages_reserved = 0 then ⟨ENOMEM, reg, none, none, false⟩
      else if descAllocOk = false then ⟨ENOMEM, reg, some (p, osHuge.hsize), none, false⟩
      else
        let bcount := mi_block_count_of_size osHuge.hsize
        let fields := (bcount + MI_BITMAP_FIELD_BITS - 1) / MI_BITMAP_FIELD_BITS
        let post := fields * MI_BITMAP_FIELD_BITS - bcount
        let map0 : List Nat := List.replicate fields 0
        let map1 := if 0 < post then
            (mi_bitmap_claim map0 fields post
              (mi_bitmap_index_create (fields - 1) (MI_BITMAP_FIELD_BITS - post))).2
          else map0
        let arena : Arena :=
          { start := p, block_count := bcount, field_count := fields,
            numa_node := numa_node, is_zero_init := true, is_large := true,
            search_idx := 0, blocks_dirty := List.replicate fields 0,
            blocks_map := map1 }
        let r := mi_arena_add reg arena
        ⟨0, r.2, none, some arena, r.1⟩

/-- First non-zero error code along a list of (numa_node, pages, timeout)
reservation calls, 0 when all calls succeed: the propagation contract of the
interleave driver. -/
def firstErr (errf : Nat → Nat → Nat → Nat) : List (Nat × Nat × Nat) → Nat
  | [] => 0
  | c :: cs => if errf c.1 c.2.1 c.2.2 = 0 then firstErr errf cs
               else errf c.1 c.2.1 c.2.2

/-- The loop of mi_reserve_huge_os_pages_interleave from arena.c; fuel counts
the remaining node indices (numa_count - numa_node), and errf abstracts
mi_reserve_huge_os_pages_at as the per-node error code. -/
def interleave_go (errf : Nat → Nat → Nat → Nat)
    (pages_per pages_mod timeout_per : Nat) :
    Nat → Nat → Nat → Nat
  | 0, _, _ => 0
  | fuel + 1, numa_node, pages =>
    if pages = 0 then 0
    else
      let node_pages := if numa_node < pages_mod then pages_per + 1 else pages_per
      if errf numa_node node_pages timeout_per ≠ 0 then
        errf numa_node node_pages timeout_per
      else
        interleave_go errf pages_per pages_mod timeout_per fuel (numa_node + 1)
          (if pages < node_pages then 0 else pages - node_pages)

/-- The same loop, recording the (numa_node, node_pages, timeout) arguments of
the successive mi_reserve_huge_os_pages_at calls when no call fails. -/
def interleave_calls_go (pages_per pages_mod timeout_per : Nat) :
    Nat → Nat → Nat → List (Nat × Nat × Nat)
  | 0, _, _ => []
  | fuel + 1, numa_node, pages =>
    if pages = 0 then []
    else
      let node_pages := if numa_node < pages_mod then pages_per + 1 else pages_per
      (numa_node, node_pages, timeout_per) ::
        interleave_calls_go pages_per pages_mod timeout_per fuel (numa_node + 1)
          (if pages < node_pages then 0 else pages - node_pages)

/-- mi_reserve_huge_os_pages_interleave from arena.c, with the per-node
reservation abstracted by errf and _mi_os_numa_node_count by
numa_node_count (clamped to at least 1, as in the source). -/
def mi_reserve_huge_os_pages_interleave (errf : Nat → Nat → Nat → Nat)
    (numa_node_count pages timeout_msecs : Nat) : Nat :=
  if pages = 0 then 0
  else
    let numa_count := if numa_node_count = 0 then 1 else numa_node_count
    interleave_go errf (pages / numa_count) (pages % numa_count)
      (timeout_msecs / numa_count + 50) numa_count 0 pages

/-- The sequence of per-node reservation calls the interleave driver performs
when no call fails. -/
def mi_interleave_calls (numa_node_count pages timeout_msecs : Nat) :
    List (Nat × Nat × Nat) :=
  if pages = 0 then []
  else
    let numa_count := if numa_node_count = 0 then 1 else numa_node_count
    interleave_calls_go (pages / numa_count) (pages % numa_count)
      (timeout_msecs / numa_count + 50) numa_count 0 pages

/-- The bits of the in-use bitmap that lie at or beyond block_count (the
leftover bits of the last field) are all marked in-use. -/
def trailing_claimed (a : Arena) : Prop :=
  ∀ j, a.block_count ≤ j → j < a.field_count * MI_BITMAP_FIELD_BITS →
    (a.blocks_map.getD (j / MI_BITMAP_FIELD_BITS) 0).testBit
      (j % MI_BITMAP_FIELD_BITS) = true

/-- A sample empty arena with one bitmap field and 64 blocks, covering the
whole object-size eligibility window, used by concrete witnesses. -/
def sampleArena : Arena :=
  { start := 0, block_count := 64, field_count := 1, numa_node := -1,
    is_zero_init := true, is_large := false, search_idx := 0,
    blocks_dirty := [0], blocks_map := [0] }

/-- A sample arena with one fully claimed single-block bitmap, used by concrete
witnesses of the free router. -/
def sampleArenaUsed : Arena :=
  { start := 0, block_count := 1, field_count := 1, numa_node := -1,
    is_zero_init := true, is_large := true, search_idx := 0,
    blocks_dirty := [1], blocks_map := [1] }

end MimallocArena

namespace MimallocArena

/-- Claim C1: for every arena_index below MI_MAX_ARENAS (64) and every
bitmap_index with no overflow in the 8-bit shift (in size_t arithmetic,
(bitmap_index << 8) >> 8 == bitmap_index), decoding the handle produced by
mi_memid_create with mi_memid_indices recovers exactly the same pair, and the
handle is never the sentinel MI_MEMID_OS. -/
theorem memid_create_indices_roundtrip (ai bi : Nat)
    (hai : ai < MI_MAX_ARENAS)
    (hbi : ((bi <<< 8) % sizeMod) >>> 8 = bi) :
    mi_memid_indices (mi_memid_create ai bi) = (ai, bi) ∧
    mi_memid_create ai bi ≠ MI_MEMID_OS := by
  have hMod : sizeMod = 2 ^ 64 := rfl
  have hb256 : bi < 2 ^ 56 := by
    have h1 : (bi <<< 8) % sizeMod < 2 ^ 64 := by
      rw [hMod]; exact Nat.mod_lt _ (by norm_num)
    have h2 : ((bi <<< 8) % sizeMod) >>> 8 < 2 ^ 56 := by
      rw [Nat.shiftRight_eq_div_pow]
      exact Nat.div_lt_of_lt_mul (by norm_num at h1 ⊢; omega)
    rwa [hbi] at h2
  have hsh : (bi <<< 8) % sizeMod = bi * 2 ^ 8 := by
    rw [Nat.shiftLeft_eq, hMod]
    exact Nat.mod_eq_of_lt (by
      have : bi * 2 ^ 8 < 2 ^ 56 * 2 ^ 8 :=
        Nat.mul_lt_mul_of_lt_of_le hb256 (Nat.le_refl _) (by norm_num)
      calc bi * 2 ^ 8 < 2 ^ 56 * 2 ^ 8 := this
        _ = 2 ^ 64 := by norm_num)
  have hai1 : ai + 1 < 2 ^ 8 := by
    have : MI_MAX_ARENAS = 64 := rfl
    omega
  have haimod : (ai + 1) % sizeMod = ai + 1 := by
    rw [hMod]; exact Nat.mod_eq_of_lt (by omega)
  have hand : (ai + 1) &&& 0xFF = ai + 1 := by
    have h := Nat.and_pow_two_sub_one_eq_mod (ai + 1) 8
    norm_num at h
    rw [h]
    exact Nat.mod_eq_of_lt (by omega)
  have hcreate : mi_memid_create ai bi = 2 ^ 8 * bi + (ai + 1) := by
    unfold mi_memid_create
    rw [hsh, haimod, hand, Nat.mul_comm bi (2 ^ 8)]
    exact (Nat.mul_add_lt_is_or hai1 bi).symm
  constructor
  · unfold mi_memid_indices
    rw [hcreate]
    have hlow : (2 ^ 8 * bi + (ai + 1)) &&& 0xFF = ai + 1 := by
      have h := Nat.and_pow_two_sub_one_eq_mod (2 ^ 8 * bi + (ai + 1)) 8
      norm_num at h ⊢
      rw [h, Nat.add_comm, Nat.add_mul_mod_self_left]
      exact Nat.mod_eq_of_lt (by omega)
    have hhigh : (2 ^ 8 * bi + (ai + 1)) >>> 8 = bi := by
      rw [Nat.shiftRight_eq_div_pow]
      rw [Nat.mul_comm, Nat.add_comm, Nat.add_mul_div_right _ _ (by norm_num : 0 < 2 ^ 8)]
      have : (ai + 1) / 2 ^ 8 = 0 := Nat.div_eq_of_lt (by omega)
      omega
    rw [hlow, hhigh]
    have : (ai + 1 + (sizeMod - 1)) % sizeMod = ai := by
      rw [hMod]
      have h1 : ai + 1 + (2 ^ 64 - 1) = 2 ^ 64 + ai := by norm_num; omega
      rw [h1, Nat.add_mod_left]
      exact Nat.mod_eq_of_lt (by
        have : MI_MAX_ARENAS = 64 := rfl
        norm_num; omega)
    rw [this]
  · rw [hcreate]
    unfold MI_MEMID_OS
    omega

/-- Witness for claim C1 at arena index 3 and bitmap index 70. -/
theorem memid_create_indices_roundtrip_witness :
    mi_memid_indices (mi_memid_create 3 70) = (3, 70) ∧
    mi_memid_create 3 70 ≠ MI_MEMID_OS :=
  memid_create_indices_roundtrip 3 70 (by decide) (by decide)

/-- Claim C2, evaluated at the failing input: a free with memid 65 (low byte
0x41, decoding to arena index 64) on an all-empty registry is not rejected
through the fatal-error channel; the code reads mi_arenas[64], one past the
end of the 64-slot registry, with no runtime bound check (only a debug
assertion that is compiled out in release builds). -/
theorem arena_free_unchecked_arena_index :
    (mi_memid_indices 65).1 = 64 ∧
    (_mi_arena_free (List.replicate 64 (none : Option Arena)) false 1 65).1 =
      FreeOutcome.oobRead := by
  constructor
  · decide
  · decide

/-- Claim C3: for a free call with a non-sentinel memid whose decoded arena
slot is non-empty and whose decoded field index is within that arena's
field_count, if the unclaim of the computed block count at the decoded bitmap
position finds at least one bit already clear the call reports the double-free
fatal error, and if every bit was previously set it completes as a clean
free. -/
theorem arena_free_double_free_detection
    (slots : List (Option Arena)) (arena : Arena) (size memid : Nat)
    (hsize : 1 ≤ size) (hmem : memid ≠ MI_MEMID_OS)
    (hidx : (mi_memid_indices memid).1 < MI_MAX_ARENAS)
    (hslot : slots.getD (mi_memid_indices memid).1 none = some arena)
    (hfield : mi_bitmap_index_field (mi_memid_indices memid).2 < arena.field_count) :
    ((mi_bitmap_unclaim arena.blocks_map arena.field_count
        (mi_block_count_of_size size) (mi_memid_indices memid).2).1 = false →
      (_mi_arena_free slots false size memid).1 = FreeOutcome.fatalDoubleFree) ∧
    ((mi_bitmap_unclaim arena.blocks_map arena.field_count
        (mi_block_count_of_size size) (mi_memid_indices memid).2).1 = true →
      (_mi_arena_free slots false size memid).1 = FreeOutcome.freed) := by
  have hs0 : ¬ size = 0 := by omega
  have hnle : ¬ arena.field_count ≤ mi_bitmap_index_field (mi_memid_indices memid).2 :=
    Nat.not_le.mpr hfield
  simp only [List.getD_eq_getElem?_getD] at hslot
  constructor <;> intro h <;>
    simp [_mi_arena_free, hs0, hmem, hidx, hslot, hnle, h]

/-- Witness for claim C3: freeing one block of a fully claimed one-block arena
with memid 1 (arena 0, bitmap position 0). -/
theorem arena_free_double_free_detection_witness :
    (1 ≤ 1 ∧ (1 : Nat) ≠ MI_MEMID_OS ∧
     (mi_memid_indices 1).1 < MI_MAX_ARENAS ∧
     [some sampleArenaUsed].getD (mi_memid_indices 1).1 none = some sampleArenaUsed ∧
     mi_bitmap_index_field (mi_memid_indices 1).2 < sampleArenaUsed.field_count) ∧
    (((mi_bitmap_unclaim sampleArenaUsed.blocks_map sampleArenaUsed.field_count
        (mi_block_count_of_size 1) (mi_memid_indices 1).2).1 = false →
      (_mi_arena_free [some sampleArenaUsed] false 1 1).1 = FreeOutcome.fatalDoubleFree) ∧
    ((mi_bitmap_unclaim sampleArenaUsed.blocks_map sampleArenaUsed.field_count
        (mi_block_count_of_size 1) (mi_memid_indices 1).2).1 = true →
      (_mi_arena_free [some sampleArenaUsed] false 1 1).1 = FreeOutcome.freed)) :=
  ⟨by decide,
   arena_free_double_free_detection [some sampleArenaUsed] sampleArenaUsed 1 1
     (by decide) (by decide) (by decide) (by decide) (by decide)⟩

/-- The bitmap-field scan of mi_arena_alloc reports failure exactly when the
try-claim fails on each of the first fuel fields of the wrap-around scan
sequence that starts at idx. -/
theorem arena_alloc_go_none_iff (bitmap : List Nat) (fcount count : Nat)
    (hf : 0 < fcount) :
    ∀ (fuel idx : Nat), idx ≤ fcount →
      (mi_arena_alloc_go bitmap fcount count idx fuel = none ↔
        ∀ k, k < fuel →
          mi_bitmap_try_find_claim_bit (bitmap.getD ((idx + k) % fcount) 0) count
            = none) := by
  intro fuel
  induction fuel with
  | zero => intro idx _; simp [mi_arena_alloc_go]
  | succ fuel ih =>
    intro idx hidx
    have hn : (if fcount ≤ idx then 0 else idx) = idx % fcount := by
      rcases Nat.lt_or_ge idx fcount with h | h
      · simp [Nat.not_le.mpr h, Nat.mod_eq_of_lt h]
      · have hx : idx = fcount := Nat.le_antisymm hidx h
        simp [hx]
    rw [mi_arena_alloc_go, hn]
    cases htc : mi_bitmap_try_find_claim_bit (bitmap.getD (idx % fcount) 0) count with
    | some o =>
      simp only [htc]
      constructor
      · intro h; exact absurd h (by simp)
      · intro hall
        exfalso
        have h0 := hall 0 (Nat.succ_pos fuel)
        rw [Nat.add_zero] at h0
        rw [htc] at h0
        exact Option.noConfusion h0
    | none =>
      simp only [htc]
      rw [ih (idx % fcount + 1) (Nat.succ_le_of_lt (Nat.mod_lt idx hf))]
      constructor
      · intro hrec k hk
        cases k with
        | zero => rw [Nat.add_zero]; exact htc
        | succ k =>
          have hr := hrec k (Nat.lt_of_succ_lt_succ hk)
          have heq : (idx % fcount + 1 + k) % fcount = (idx + (k + 1)) % fcount := by
            rw [Nat.add_assoc, Nat.mod_add_mod, Nat.add_comm 1 _]
          rwa [heq] at hr
      · intro hall k hk
        have hr := hall (k + 1) (Nat.succ_lt_succ hk)
        have heq : (idx % fcount + 1 + k) % fcount = (idx + (k + 1)) % fcount := by
          rw [Nat.add_assoc, Nat.mod_add_mod, Nat.add_comm 1 _]
        rwa [← heq] at hr

/-- A successful bitmap-field scan of mi_arena_alloc returns the position of
the first successful try-claim along the wrap-around scan sequence starting at
idx, together with the field index and the bitmap updated only there. -/
theorem arena_alloc_go_some (bitmap : List Nat) (fcount count : Nat)
    (hf : 0 < fcount) :
    ∀ (fuel idx : Nat) (res : Nat × Nat × List Nat), idx ≤ fcount →
      mi_arena_alloc_go bitmap fcount count idx fuel = some res →
      ∃ k o, k < fuel ∧
        mi_bitmap_try_find_claim_bit (bitmap.getD ((idx + k) % fcount) 0) count
          = some o ∧
        (∀ j, j < k →
          mi_bitmap_try_find_claim_bit (bitmap.getD ((idx + j) % fcount) 0) count
            = none) ∧
        res = (mi_bitmap_index_create ((idx + k) % fcount) o, (idx + k) % fcount,
               bitmap.set ((idx + k) % fcount)
                 (bitmap.getD ((idx + k) % fcount) 0 ||| mi_bitmap_mask count o)) := by
  intro fuel
  induction fuel with
  | zero => intro idx res _ h; simp [mi_arena_alloc_go] at h
  | succ fuel ih =>
    intro idx res hidx hgo
    have hn : (if fcount ≤ idx then 0 else idx) = idx % fcount := by
      rcases Nat.lt_or_ge idx fcount with h | h
      · simp [Nat.not_le.mpr h, Nat.mod_eq_of_lt h]
      · have hx : idx = fcount := Nat.le_antisymm hidx h
        simp [hx]
    rw [mi_arena_alloc_go, hn] at hgo
    cases htc : mi_bitmap_try_find_claim_bit (bitmap.getD (idx % fcount) 0) count with
    | some o =>
      rw [htc] at hgo
      simp only [Option.some.injEq] at hgo
      refine ⟨0, o, Nat.succ_pos fuel, ?_, ?_, ?_⟩
      · rw [Nat.add_zero]; exact htc
      · intro j hj; omega
      · rw [Nat.add_zero]; exact hgo.symm
    | none =>
      rw [htc] at hgo
      obtain ⟨k, o, hk, hsucc, hprev, hres⟩ :=
        ih (idx % fcount + 1) res (Nat.succ_le_of_lt (Nat.mod_lt idx hf)) hgo
      have heq : ∀ m : Nat, (idx % fcount + 1 + m) % fcount = (idx + (m + 1)) % fcount := by
        intro m
        rw [Nat.add_assoc, Nat.mod_add_mod, Nat.add_comm 1 _]
      refine ⟨k + 1, o, Nat.succ_lt_succ hk, ?_, ?_, ?_⟩
      · rwa [heq k] at hsucc
      · intro j hj
        cases j with
        | zero => rw [Nat.add_zero]; exact htc
        | succ j =>
          have hr := hprev j (Nat.lt_of_succ_lt_succ hj)
          rwa [heq j] at hr
      · rwa [heq k] at hres

/-- The wrap-around scan sequence of length fcount starting at a field index
below fcount visits every field index below fcount. -/
theorem scan_covers (fcount s : Nat) (hs : s < fcount) (P : Nat → Prop) :
    (∀ k, k < fcount → P ((s + k) % fcount)) ↔ (∀ j, j < fcount → P j) := by
  constructor
  · intro h j hj
    rcases le_or_lt s j with hle | hlt
    · have hx := h (j - s) (by omega)
      rw [Nat.add_sub_cancel' hle, Nat.mod_eq_of_lt hj] at hx
      exact hx
    · have hx := h (j + fcount - s) (by omega)
      have heq : s + (j + fcount - s) = j + fcount := by omega
      rw [heq, Nat.add_mod_right, Nat.mod_eq_of_lt (by omega)] at hx
      exact hx
  · intro h k _
    exact h _ (Nat.mod_lt _ (by omega))

/-- Claim C6: for every arena with at least one bitmap field and an in-range
search cursor, mi_arena_alloc fails exactly when the try-claim fails on every
one of the field_count fields; and on success it returns the bitmap position
of the first successful try-claim along the wrap-around scan that starts at
search_idx, stores that field index into search_idx, and updates only that
field of the bitmap. -/
theorem arena_alloc_first_fit (arena : Arena) (blocks : Nat)
    (hf : 1 ≤ arena.field_count) (hs : arena.search_idx < arena.field_count) :
    (mi_arena_alloc arena blocks = none ↔
      ∀ j, j < arena.field_count →
        mi_bitmap_try_find_claim_bit (arena.blocks_map.getD j 0) blocks = none) ∧
    (∀ bidx arena1, mi_arena_alloc arena blocks = some (bidx, arena1) →
      ∃ k o, k < arena.field_count ∧
        mi_bitmap_try_find_claim_bit
          (arena.blocks_map.getD ((arena.search_idx + k) % arena.field_count) 0)
          blocks = some o ∧
        (∀ j, j < k →
          mi_bitmap_try_find_claim_bit
            (arena.blocks_map.getD ((arena.search_idx + j) % arena.field_count) 0)
            blocks = none) ∧
        bidx = mi_bitmap_index_create ((arena.search_idx + k) % arena.field_count) o ∧
        arena1.search_idx = (arena.search_idx + k) % arena.field_count ∧
        arena1.blocks_map = arena.blocks_map.set
          ((arena.search_idx + k) % arena.field_count)
          (arena.blocks_map.getD ((arena.search_idx + k) % arena.field_count) 0 |||
            mi_bitmap_mask blocks o) ∧
        arena1.block_count = arena.block_count ∧
        arena1.field_count = arena.field_count ∧
        arena1.blocks_dirty = arena.blocks_dirty) := by
  have hf0 : 0 < arena.field_count := hf
  constructor
  · have hiff := arena_alloc_go_none_iff arena.blocks_map arena.field_count blocks
      hf0 arena.field_count arena.search_idx (Nat.le_of_lt hs)
    have halloc_iff : mi_arena_alloc arena blocks = none ↔
        mi_arena_alloc_go arena.blocks_map arena.field_count blocks
          arena.search_idx arena.field_count = none := by
      unfold mi_arena_alloc
      cases hgo : mi_arena_alloc_go arena.blocks_map arena.field_count blocks
          arena.search_idx arena.field_count with
      | none => simp
      | some val =>
        obtain ⟨b, i, m⟩ := val
        simp
    rw [halloc_iff, hiff]
    exact scan_covers arena.field_count arena.search_idx hs
      (fun f => mi_bitmap_try_find_claim_bit (arena.blocks_map.getD f 0) blocks = none)
  · intro bidx arena1 halloc
    unfold mi_arena_alloc at halloc
    cases hgo : mi_arena_alloc_go arena.blocks_map arena.field_count blocks
        arena.search_idx arena.field_count with
    | none => rw [hgo] at halloc; exact absurd halloc (by simp)
    | some val =>
      obtain ⟨b, i, m⟩ := val
      rw [hgo] at halloc
      simp only [Option.some.injEq, Prod.mk.injEq] at halloc
      obtain ⟨hb, harena1⟩ := halloc
      obtain ⟨k, o, hk, hsucc, hprev, hres⟩ :=
        arena_alloc_go_some arena.blocks_map arena.field_count blocks hf0
          arena.field_count arena.search_idx (b, i, m) (Nat.le_of_lt hs) hgo
      simp only [Prod.mk.injEq] at hres
      obtain ⟨hres1, hres2, hres3⟩ := hres
      subst harena1
      exact ⟨k, o, hk, hsucc, hprev, by rw [← hb, hres1], by simp [hres2],
             by simp [hres3], rfl, rfl, rfl⟩

/-- Witness for claim C6: an arena with two fields, the first full and the
second empty, and a one-block request. -/
theorem arena_alloc_first_fit_witness :
    (1 ≤ (2 : Nat) ∧ (0 : Nat) < 2) ∧
    ((mi_arena_alloc
        { start := 0, block_count := 128, field_count := 2, numa_node := -1,
          is_zero_init := true, is_large := false, search_idx := 0,
          blocks_dirty := [0, 0], blocks_map := [sizeMod - 1, 0] } 1 = none ↔
      ∀ j, j < 2 →
        mi_bitmap_try_find_claim_bit
          (([sizeMod - 1, 0] : List Nat).getD j 0) 1 = none) ∧
    (∀ bidx arena1, mi_arena_alloc
        { start := 0, block_count := 128, field_count := 2, numa_node := -1,
          is_zero_init := true, is_large := false, search_idx := 0,
          blocks_dirty := [0, 0], blocks_map := [sizeMod - 1, 0] } 1
          = some (bidx, arena1) →
      ∃ k o, k < 2 ∧
        mi_bitmap_try_find_claim_bit
          (([sizeMod - 1, 0] : List Nat).getD ((0 + k) % 2) 0) 1 = some o ∧
        (∀ j, j < k →
          mi_bitmap_try_find_claim_bit
            (([sizeMod - 1, 0] : List Nat).getD ((0 + j) % 2) 0) 1 = none) ∧
        bidx = mi_bitmap_index_create ((0 + k) % 2) o ∧
        arena1.search_idx = (0 + k) % 2 ∧
        arena1.blocks_map = ([sizeMod - 1, 0] : List Nat).set ((0 + k) % 2)
          (([sizeMod - 1, 0] : List Nat).getD ((0 + k) % 2) 0 |||
            mi_bitmap_mask 1 o) ∧
        arena1.block_count = 128 ∧
        arena1.field_count = 2 ∧
        arena1.blocks_dirty = [0, 0])) :=
  ⟨⟨by decide, by decide⟩,
   arena_alloc_first_fit
     { start := 0, block_count := 128, field_count := 2, numa_node := -1,
       is_zero_init := true, is_large := false, search_idx := 0,
       blocks_dirty := [0, 0], blocks_map := [sizeMod - 1, 0] } 1
     (by decide) (by decide)⟩

/-- getD after set at the written index, when the index is in range. -/
theorem list_getD_set_eq {α : Type} (l : List α) (i : Nat) (v d : α)
    (h : i < l.length) : (l.set i v).getD i d = v := by
  simp [List.getD_eq_getElem?_getD, List.getElem?_set_self h]

/-- getD after set at any other index. -/
theorem list_getD_set_ne {α : Type} (l : List α) (i j : Nat) (v d : α)
    (h : i ≠ j) : (l.set i v).getD j d = l.getD j d := by
  simp [List.getD_eq_getElem?_getD, List.getElem?_set_ne h]

/-- getD past the end of the list is the default. -/
theorem list_getD_eq_default_of_le {α : Type} (l : List α) (j : Nat) (d : α)
    (h : l.length ≤ j) : l.getD j d = d := by
  simp [List.getD_eq_getElem?_getD, List.getElem?_eq_none h]

/-- Claim C8: mi_arena_add reserves the next slot index by incrementing
mi_arena_count; when the reserved index is at or beyond MI_MAX_ARENAS it
decrements the count back and returns false leaving the registry unchanged,
and otherwise it returns true, writes the descriptor into exactly that slot,
leaves every previously published slot untouched, and preserves the
fill-in-increasing-order invariant. -/
theorem arena_add_publish (reg : RegState) (arena : Arena)
    (hlen : reg.slots.length = MI_MAX_ARENAS)
    (hmono : ∀ j, j < MI_MAX_ARENAS → reg.count ≤ j → reg.slots.getD j none = none) :
    (MI_MAX_ARENAS ≤ reg.count → mi_arena_add reg arena = (false, reg)) ∧
    (reg.count < MI_MAX_ARENAS →
      (mi_arena_add reg arena).1 = true ∧
      (mi_arena_add reg arena).2.count = reg.count + 1 ∧
      (mi_arena_add reg arena).2.slots = reg.slots.set reg.count (some arena) ∧
      (mi_arena_add reg arena).2.slots.getD reg.count none = some arena ∧
      (∀ j a0, reg.slots.getD j none = some a0 →
        (mi_arena_add reg arena).2.slots.getD j none = some a0) ∧
      (∀ j, j < MI_MAX_ARENAS → reg.count + 1 ≤ j →
        (mi_arena_add reg arena).2.slots.getD j none = none)) := by
  obtain ⟨c, s⟩ := reg
  simp only at hlen hmono ⊢
  constructor
  · intro h
    have hadd : mi_arena_add ⟨c, s⟩ arena = (false, ⟨c, s⟩) := by
      simp [mi_arena_add, h]
    rw [hadd]
  · intro h
    have hn : ¬ MI_MAX_ARENAS ≤ c := Nat.not_le.mpr h
    have hadd : mi_arena_add ⟨c, s⟩ arena = (true, ⟨c + 1, s.set c (some arena)⟩) := by
      simp [mi_arena_add, hn]
    rw [hadd]
    refine ⟨rfl, rfl, rfl, ?_, ?_, ?_⟩
    · exact list_getD_set_eq s c (some arena) none (by omega)
    · intro j a0 hj
      have hne : c ≠ j := by
        intro hcj
        subst hcj
        rcases Nat.lt_or_ge c MI_MAX_ARENAS with hlt | hge
        · rw [hmono c hlt (Nat.le_refl c)] at hj
          exact Option.noConfusion hj
        · rw [list_getD_eq_default_of_le s c none (by omega)] at hj
          exact Option.noConfusion hj
      rw [list_getD_set_ne s c j (some arena) none hne]
      exact hj
    · intro j hj hge
      rw [list_getD_set_ne s c j (some arena) none (by omega)]
      exact hmono j hj (by omega)

/-- Witness for claim C8: publishing into an empty 64-slot registry. -/
theorem arena_add_publish_witness :
    ((RegState.mk 0 (List.replicate 64 none)).slots.length = MI_MAX_ARENAS ∧
     (∀ j, j < MI_MAX_ARENAS → (RegState.mk 0 (List.replicate 64 none)).count ≤ j →
        (RegState.mk 0 (List.replicate 64 none)).slots.getD j none = none)) ∧
    ((MI_MAX_ARENAS ≤ (RegState.mk 0 (List.replicate 64 none)).count →
       mi_arena_add (RegState.mk 0 (List.replicate 64 none)) sampleArena =
         (false, RegState.mk 0 (List.replicate 64 none))) ∧
     ((RegState.mk 0 (List.replicate 64 none)).count < MI_MAX_ARENAS →
       (mi_arena_add (RegState.mk 0 (List.replicate 64 none)) sampleArena).1 = true ∧
       (mi_arena_add (RegState.mk 0 (List.replicate 64 none)) sampleArena).2.count =
         (RegState.mk 0 (List.replicate 64 none)).count + 1 ∧
       (mi_arena_add (RegState.mk 0 (List.replicate 64 none)) sampleArena).2.slots =
         (RegState.mk 0 (List.replicate 64 none)).slots.set
           (RegState.mk 0 (List.replicate 64 none)).count (some sampleArena) ∧
       (mi_arena_add (RegState.mk 0 (List.replicate 64 none)) sampleArena).2.slots.getD
         (RegState.mk 0 (List.replicate 64 none)).count none = some sampleArena ∧
       (∀ j a0, (RegState.mk 0 (List.replicate 64 none)).slots.getD j none = some a0 →
         (mi_arena_add (RegState.mk 0 (List.replicate 64 none)) sampleArena).2.slots.getD
           j none = some a0) ∧
       (∀ j, j < MI_MAX_ARENAS →
         (RegState.mk 0 (List.replicate 64 none)).count + 1 ≤ j →
         (mi_arena_add (RegState.mk 0 (List.replicate 64 none)) sampleArena).2.slots.getD
           j none = none))) :=
  ⟨⟨by decide, by decide⟩,
   arena_add_publish (RegState.mk 0 (List.replicate 64 none)) sampleArena
     (by decide) (by decide)⟩

/-- Claim C10: when the huge-page reservation succeeds but the OS allocation of
the descriptor storage fails, mi_reserve_huge_os_pages_at frees the reserved
huge pages back to the OS, returns ENOMEM, builds no arena, and leaves the
registry unchanged. -/
theorem reserve_huge_rollback (osHuge : HugeOsAlloc) (numa_node_count : Nat)
    (reg : RegState) (pages : Nat) (numa_node : Int) (timeout : Nat) (p : Nat)
    (hp : 1 ≤ pages) (hP : osHuge.p = some p) (hr : 1 ≤ osHuge.pages_reserved) :
    mi_reserve_huge_os_pages_at osHuge false numa_node_count reg pages
        numa_node timeout =
      ⟨ENOMEM, reg, some (p, osHuge.hsize), none, false⟩ := by
  have h0 : ¬ pages = 0 := by omega
  have hr0 : ¬ osHuge.pages_reserved = 0 := by omega
  simp [mi_reserve_huge_os_pages_at, h0, hP, hr0]

/-- Witness for claim C10 at a one-page reservation whose descriptor
allocation fails. -/
theorem reserve_huge_rollback_witness :
    (1 ≤ 1 ∧ (HugeOsAlloc.mk (some 7) 1 42).p = some 7 ∧
     1 ≤ (HugeOsAlloc.mk (some 7) 1 42).pages_reserved) ∧
    mi_reserve_huge_os_pages_at (HugeOsAlloc.mk (some 7) 1 42) false 1
        (RegState.mk 0 (List.replicate 64 none)) 1 0 5 =
      ⟨ENOMEM, RegState.mk 0 (List.replicate 64 none), some (7, 42), none, false⟩ :=
  ⟨⟨by decide, by decide, by decide⟩,
   reserve_huge_rollback (HugeOsAlloc.mk (some 7) 1 42) 1
     (RegState.mk 0 (List.replicate 64 none)) 1 0 5 7
     (by decide) (by decide) (by decide)⟩

/-- The bits of a within-field bitmap mask are exactly the count consecutive
positions starting at the bit offset o, provided the run fits in the field. -/
theorem mi_bitmap_mask_testBit (count o t : Nat) (h : o + count ≤ 64) :
    (mi_bitmap_mask count o).testBit t = true ↔ (o ≤ t ∧ t < o + count) := by
  have h1 : (1 <<< count) - 1 = 2 ^ count - 1 := by
    rw [Nat.shiftLeft_eq, Nat.one_mul]
  have hlt : ((1 <<< count) - 1) <<< o < sizeMod := by
    rw [h1, Nat.shiftLeft_eq]
    have hpos : 0 < 2 ^ count := Nat.pos_pow_of_pos count (by norm_num)
    have h2 : (2 ^ count - 1) * 2 ^ o < 2 ^ count * 2 ^ o :=
      Nat.mul_lt_mul_of_lt_of_le (by omega) (Nat.le_refl _)
        (Nat.pos_pow_of_pos o (by norm_num))
    calc (2 ^ count - 1) * 2 ^ o < 2 ^ count * 2 ^ o := h2
      _ = 2 ^ (count + o) := by rw [← pow_add]
      _ ≤ 2 ^ 64 := Nat.pow_le_pow_right (by norm_num) (by omega)
  unfold mi_bitmap_mask
  rw [Nat.mod_eq_of_lt hlt, h1, Nat.testBit_shiftLeft, Nat.testBit_two_pow_sub_one]
  simp only [Bool.and_eq_true, decide_eq_true_eq, ge_iff_le]
  omega

/-- If a field has no bit in common with a within-field mask, every bit of the
field covered by the mask is clear. -/
theorem and_mask_zero_bit (field count o t : Nat) (h : o + count ≤ 64)
    (hz : field &&& mi_bitmap_mask count o = 0) (h1 : o ≤ t) (h2 : t < o + count) :
    field.testBit t = false := by
  have hb := congrArg (fun n => n.testBit t) hz
  simp only [Nat.testBit_and, Nat.zero_testBit] at hb
  have hm : (mi_bitmap_mask count o).testBit t = true :=
    (mi_bitmap_mask_testBit count o t h).mpr ⟨h1, h2⟩
  rw [hm, Bool.and_true] at hb
  exact hb

/-- A successful try-claim of count bits returns an offset whose run fits in
the 64-bit field and whose covered bits are all clear. -/
theorem try_find_claim_bit_spec (field count o : Nat)
    (hc : count ≤ MI_BITMAP_FIELD_BITS)
    (h : mi_bitmap_try_find_claim_bit field count = some o) :
    o + count ≤ MI_BITMAP_FIELD_BITS ∧ field &&& mi_bitmap_mask count o = 0 := by
  unfold mi_bitmap_try_find_claim_bit at h
  have hmem := List.mem_of_find?_eq_some h
  have hp := List.find?_some h
  have h64 : MI_BITMAP_FIELD_BITS = 64 := rfl
  constructor
  · have hlt := List.mem_range.mp hmem
    rw [h64] at hlt hc ⊢
    omega
  · simpa using hp

/-- A step of mi_arena_alloc with an idx at or below field_count equals the
step from the wrapped index. -/
theorem arena_alloc_go_norm (bitmap : List Nat) (fcount count idx fuel : Nat)
    (hfuel : 0 < fuel) :
    mi_arena_alloc_go bitmap fcount count idx fuel =
    mi_arena_alloc_go bitmap fcount count (if fcount ≤ idx then 0 else idx) fuel := by
  obtain ⟨f, rfl⟩ : ∃ f, fuel = f + 1 := ⟨fuel - 1, by omega⟩
  rw [mi_arena_alloc_go, mi_arena_alloc_go]
  by_cases h : fcount ≤ idx
  · simp [h]
  · simp [h]

/-- An allocation step never hands out a block position at or beyond
block_count when the trailing bits are claimed, and it keeps them claimed. -/
theorem alloc_preserves_trailing (a : Arena) (blocks bidx : Nat) (a1 : Arena)
    (hb1 : 1 ≤ blocks) (hb64 : blocks ≤ MI_BITMAP_FIELD_BITS)
    (ht : trailing_claimed a)
    (halloc : mi_arena_alloc a blocks = some (bidx, a1)) :
    (∀ j, bidx ≤ j → j < bidx + blocks → j < a.block_count) ∧
    trailing_claimed a1 := by
  have h64 : MI_BITMAP_FIELD_BITS = 64 := rfl
  have hf0 : 0 < a.field_count := by
    by_contra h0
    push_neg at h0
    have hz : a.field_count = 0 := by omega
    unfold mi_arena_alloc at halloc
    rw [hz] at halloc
    simp [mi_arena_alloc_go] at halloc
  unfold mi_arena_alloc at halloc
  cases hgo : mi_arena_alloc_go a.blocks_map a.field_count blocks
      a.search_idx a.field_count with
  | none => rw [hgo] at halloc; exact absurd halloc (by simp)
  | some val =>
    obtain ⟨b, i, m⟩ := val
    rw [hgo] at halloc
    simp only [Option.some.injEq, Prod.mk.injEq] at halloc
    obtain ⟨hb, ha1⟩ := halloc
    have hnle : (if a.field_count ≤ a.search_idx then 0 else a.search_idx) ≤
        a.field_count := by
      split <;> omega
    have hgo2 : mi_arena_alloc_go a.blocks_map a.field_count blocks
        (if a.field_count ≤ a.search_idx then 0 else a.search_idx)
        a.field_count = some (b, i, m) := by
      rw [← arena_alloc_go_norm a.blocks_map a.field_count blocks
            a.search_idx a.field_count hf0]
      exact hgo
    obtain ⟨k, o, hk, hsucc, hprev, hres⟩ :=
      arena_alloc_go_some a.blocks_map a.field_count blocks hf0
        a.field_count (if a.field_count ≤ a.search_idx then 0 else a.search_idx)
        (b, i, m) hnle hgo2
    simp only [Prod.mk.injEq] at hres
    obtain ⟨hres1, hres2, hres3⟩ := hres
    have hflt : ((if a.field_count ≤ a.search_idx then 0 else a.search_idx) + k) %
        a.field_count < a.field_count := Nat.mod_lt _ hf0
    obtain ⟨ho64, hzero⟩ :=
      try_find_claim_bit_spec
        (a.blocks_map.getD
          (((if a.field_count ≤ a.search_idx then 0 else a.search_idx) + k) %
            a.field_count) 0) blocks o hb64 hsucc
    have hbidx : bidx =
        (((if a.field_count ≤ a.search_idx then 0 else a.search_idx) + k) %
          a.field_count) * MI_BITMAP_FIELD_BITS + o := by
      rw [← hb, hres1]; rfl
    rw [h64] at ho64 hbidx
    constructor
    · intro j hj1 hj2
      by_contra hge
      push_neg at hge
      have hjlt : j < a.field_count * MI_BITMAP_FIELD_BITS := by
        rw [h64]
        have := hflt
        omega
      have hbit := ht j hge hjlt
      rw [h64] at hbit
      have hjd : j / 64 =
          ((if a.field_count ≤ a.search_idx then 0 else a.search_idx) + k) %
            a.field_count := by omega
      have hjm : o ≤ j % 64 ∧ j % 64 < o + blocks := by omega
      rw [hjd] at hbit
      have hfalse := and_mask_zero_bit _ blocks o (j % 64) ho64 hzero hjm.1 hjm.2
      rw [hbit] at hfalse
      exact Bool.noConfusion hfalse
    · subst ha1
      intro j hj1 hj2
      simp only at hj1 hj2 ⊢
      rw [hres3]
      by_cases hjf : ((if a.field_count ≤ a.search_idx then 0 else a.search_idx)
          + k) % a.field_count = j / MI_BITMAP_FIELD_BITS
      · rcases Nat.lt_or_ge (((if a.field_count ≤ a.search_idx then 0
            else a.search_idx) + k) % a.field_count) a.blocks_map.length with hl | hl
        · rw [← hjf, list_getD_set_eq _ _ _ _ hl]
          have hbit := ht j hj1 hj2
          rw [← hjf] at hbit
          rw [Nat.testBit_or, hbit]
          simp
        · rw [List.set_eq_of_length_le (by omega)]
          exact ht j hj1 hj2
      · rw [list_getD_set_ne _ _ _ _ _ hjf]
        exact ht j hj1 hj2

/-- Claim C7: a successful huge-page reservation builds a descriptor with
field_count = ceil(block_count / MI_BITMAP_FIELD_BITS), is_large and
is_zero_init set, search cursor 0, and the leftover bits of the last bitmap
field pre-claimed; and an allocation step on any arena whose leftover bits are
claimed never hands out a position at or beyond block_count and keeps those
bits claimed. -/
theorem reserve_huge_arena_invariants (osHuge : HugeOsAlloc)
    (numa_node_count : Nat) (reg : RegState) (pages : Nat) (numa_node : Int)
    (timeout : Nat) (p : Nat) (arena : Arena)
    (hp : 1 ≤ pages) (hP : osHuge.p = some p) (hr : 1 ≤ osHuge.pages_reserved)
    (ha : (mi_reserve_huge_os_pages_at osHuge true numa_node_count reg pages
            numa_node timeout).arena_built = some arena) :
    arena.field_count = _mi_divide_up arena.block_count MI_BITMAP_FIELD_BITS ∧
    arena.is_large = true ∧
    arena.is_zero_init = true ∧
    arena.search_idx = 0 ∧
    trailing_claimed arena ∧
    (∀ (a : Arena) (blocks bidx : Nat) (a1 : Arena),
      1 ≤ blocks → blocks ≤ MI_BITMAP_FIELD_BITS → trailing_claimed a →
      mi_arena_alloc a blocks = some (bidx, a1) →
      (∀ j, bidx ≤ j → j < bidx + blocks → j < a.block_count) ∧
      trailing_claimed a1) := by
  have h64 : MI_BITMAP_FIELD_BITS = 64 := rfl
  have h0 : ¬ pages = 0 := by omega
  have hr0 : ¬ osHuge.pages_reserved = 0 := by omega
  simp only [mi_reserve_huge_os_pages_at, h0, hP, hr0, if_false, ite_false,
    Bool.true_eq_false, eq_self_iff_true, if_true, Option.some.injEq] at ha
  subst ha
  refine ⟨rfl, rfl, rfl, rfl, ?_, ?_⟩
  · intro j hj1 hj2
    simp only at hj1 hj2 ⊢
    set bcount := mi_block_count_of_size osHuge.hsize with hbc
    set fields := (bcount + MI_BITMAP_FIELD_BITS - 1) / MI_BITMAP_FIELD_BITS with hfdef
    have hfeq : fields = (bcount + 64 - 1) / 64 := by rw [hfdef, h64]
    have hflow : bcount ≤ fields * 64 ∧ fields * 64 < bcount + 64 := by omega
    set post := fields * MI_BITMAP_FIELD_BITS - bcount with hpost
    have hposteq : post = fields * 64 - bcount := by rw [hpost, h64]
    rw [h64] at hj2
    have hpostpos : 0 < post := by omega
    rw [if_pos hpostpos]
    have hfields1 : 1 ≤ fields := by
      by_contra hc
      push_neg at hc
      interval_cases fields <;> omega
    have hpostle : post ≤ 63 := by omega
    have hidxd : ((fields - 1) * 64 + (64 - post)) / 64 = fields - 1 := by omega
    have hidxm : ((fields - 1) * 64 + (64 - post)) % 64 = 64 - post := by omega
    have hget0 : (List.replicate fields (0 : Nat)).getD (fields - 1) 0 = 0 := by
      simp only [List.getD_eq_getElem?_getD, List.getElem?_replicate]
      split <;> rfl
    have hmap : (mi_bitmap_claim (List.replicate fields 0) fields post
        (mi_bitmap_index_create (fields - 1) (MI_BITMAP_FIELD_BITS - post))).2 =
        (List.replicate fields 0).set (fields - 1) (mi_bitmap_mask post (64 - post)) := by
      simp only [mi_bitmap_claim, mi_bitmap_index_create, mi_bitmap_index_field,
        mi_bitmap_index_bit_in_field, h64]
      rw [hidxd, hidxm, hget0, Nat.zero_or]
    rw [hmap, h64]
    have hjd : j / 64 = fields - 1 := by omega
    have hjm : 64 - post ≤ j % 64 := by omega
    rw [hjd, list_getD_set_eq _ _ _ _ (by simp; omega)]
    exact (mi_bitmap_mask_testBit post (64 - post) (j % 64) (by omega)).mpr
      ⟨hjm, by omega⟩
  · intro a blocks bidx a1 hblocks1 hblocks64 htr hal
    exact alloc_preserves_trailing a blocks bidx a1 hblocks1 hblocks64 htr hal

/-- Witness for claim C7: a reservation whose huge-page region covers three
blocks, leaving 61 leftover bits in the single bitmap field. -/
theorem reserve_huge_arena_invariants_witness :
    (1 ≤ 1 ∧ (HugeOsAlloc.mk (some 0) 1 (3 * MI_ARENA_BLOCK_SIZE)).p = some 0 ∧
     1 ≤ (HugeOsAlloc.mk (some 0) 1 (3 * MI_ARENA_BLOCK_SIZE)).pages_reserved ∧
     (mi_reserve_huge_os_pages_at
        (HugeOsAlloc.mk (some 0) 1 (3 * MI_ARENA_BLOCK_SIZE)) true 1
        (RegState.mk 0 (List.replicate 64 none)) 1 0 100).arena_built =
      some (Arena.mk 0 3 1 0 true true 0 [0] [((1 <<< 61) - 1) <<< 3])) ∧
    ((Arena.mk 0 3 1 0 true true 0 [0] [((1 <<< 61) - 1) <<< 3]).field_count =
      _mi_divide_up
        (Arena.mk 0 3 1 0 true true 0 [0] [((1 <<< 61) - 1) <<< 3]).block_count
        MI_BITMAP_FIELD_BITS ∧
     (Arena.mk 0 3 1 0 true true 0 [0] [((1 <<< 61) - 1) <<< 3]).is_large = true ∧
     (Arena.mk 0 3 1 0 true true 0 [0] [((1 <<< 61) - 1) <<< 3]).is_zero_init = true ∧
     (Arena.mk 0 3 1 0 true true 0 [0] [((1 <<< 61) - 1) <<< 3]).search_idx = 0 ∧
     trailing_claimed (Arena.mk 0 3 1 0 true true 0 [0] [((1 <<< 61) - 1) <<< 3]) ∧
     (∀ (a : Arena) (blocks bidx : Nat) (a1 : Arena),
       1 ≤ blocks → blocks ≤ MI_BITMAP_FIELD_BITS → trailing_claimed a →
       mi_arena_alloc a blocks = some (bidx, a1) →
       (∀ j, bidx ≤ j → j < bidx + blocks → j < a.block_count) ∧
       trailing_claimed a1)) :=
  ⟨⟨by decide, by decide, by decide, by decide⟩,
   reserve_huge_arena_invariants
     (HugeOsAlloc.mk (some 0) 1 (3 * MI_ARENA_BLOCK_SIZE)) 1
     (RegState.mk 0 (List.replicate 64 none)) 1 0 100 0
     (Arena.mk 0 3 1 0 true true 0 [0] [((1 <<< 61) - 1) <<< 3])
     (by decide) (by decide) (by decide) (by decide)⟩

/-- Claim C5: _mi_arena_alloc_aligned attempts arena-backed allocation exactly
when alignment is at most MI_SEGMENT_ALIGN and the size lies in
[MI_ARENA_MIN_OBJ_SIZE, MI_ARENA_MAX_OBJ_SIZE]; with an eligible empty arena
registered, a request of exactly MI_ARENA_MIN_OBJ_SIZE or exactly
MI_ARENA_MAX_OBJ_SIZE is served from the arena (non-sentinel memid, no OS
call), while one byte below the minimum or one byte above the maximum goes
straight to the OS. -/
theorem arena_eligibility_boundary :
    (∀ (slots : List (Option Arena)) (numa_node : Int) (opt : Bool)
       (os_ptr : Option Nat) (size alignment : Nat) (commit : Bool)
       (large_arg : Option Bool),
      (_mi_arena_alloc_aligned slots numa_node opt os_ptr size alignment commit
        large_arg).attempted_arena =
      (decide (alignment ≤ MI_SEGMENT_ALIGN) &&
       decide (size ≤ MI_ARENA_MAX_OBJ_SIZE) &&
       decide (MI_ARENA_MIN_OBJ_SIZE ≤ size))) ∧
    (_mi_arena_alloc_aligned [some sampleArena] 0 false none MI_ARENA_MIN_OBJ_SIZE
       MI_SEGMENT_ALIGN false (some false)).os_called = false ∧
    (_mi_arena_alloc_aligned [some sampleArena] 0 false none MI_ARENA_MIN_OBJ_SIZE
       MI_SEGMENT_ALIGN false (some false)).memid ≠ MI_MEMID_OS ∧
    (_mi_arena_alloc_aligned [some sampleArena] 0 false none
       (MI_ARENA_MIN_OBJ_SIZE - 1) MI_SEGMENT_ALIGN false
       (some false)).os_called = true ∧
    (_mi_arena_alloc_aligned [some sampleArena] 0 false none MI_ARENA_MAX_OBJ_SIZE
       MI_SEGMENT_ALIGN false (some false)).os_called = false ∧
    (_mi_arena_alloc_aligned [some sampleArena] 0 false none MI_ARENA_MAX_OBJ_SIZE
       MI_SEGMENT_ALIGN false (some false)).memid ≠ MI_MEMID_OS ∧
    (_mi_arena_alloc_aligned [some sampleArena] 0 false none
       (MI_ARENA_MAX_OBJ_SIZE + 1) MI_SEGMENT_ALIGN false
       (some false)).os_called = true := by
  refine ⟨?_, by decide, by decide, by decide, by decide, by decide, by decide⟩
  intro slots numa_node opt os_ptr size alignment commit large_arg
  simp only [_mi_arena_alloc_aligned]
  by_cases he : (decide (alignment ≤ MI_SEGMENT_ALIGN) &&
      decide (size ≤ MI_ARENA_MAX_OBJ_SIZE) &&
      decide (MI_ARENA_MIN_OBJ_SIZE ≤ size)) = true
  · rw [if_pos he]
    split
    · exact he.symm
    · split
      · exact he.symm
      · rfl
  · rw [if_neg he]

/-- Claim C9: whenever _mi_arena_alloc_aligned reaches the OS fallback path,
the returned memory id is the sentinel MI_MEMID_OS, the is_zero flag is true,
and the large flag passed to the OS allocator is the global large-OS-pages
option when the caller requested large pages (and stays false otherwise). -/
theorem os_fallback_postconditions (slots : List (Option Arena))
    (numa_node : Int) (opt : Bool) (os_ptr : Option Nat)
    (size alignment : Nat) (commit : Bool) (large_arg : Option Bool)
    (hos : (_mi_arena_alloc_aligned slots numa_node opt os_ptr size alignment
             commit large_arg).os_called = true) :
    (_mi_arena_alloc_aligned slots numa_node opt os_ptr size alignment commit
      large_arg).memid = MI_MEMID_OS ∧
    (_mi_arena_alloc_aligned slots numa_node opt os_ptr size alignment commit
      large_arg).is_zero = true ∧
    (_mi_arena_alloc_aligned slots numa_node opt os_ptr size alignment commit
      large_arg).large =
      (if large_arg.getD false then opt else large_arg.getD false) := by
  simp only [_mi_arena_alloc_aligned] at hos ⊢
  by_cases he : (decide (alignment ≤ MI_SEGMENT_ALIGN) &&
      decide (size ≤ MI_ARENA_MAX_OBJ_SIZE) &&
      decide (MI_ARENA_MIN_OBJ_SIZE ≤ size)) = true
  · rw [if_pos he] at hos ⊢
    cases hp1 : arena_pass slots numa_node true (large_arg.getD false)
        (mi_block_count_of_size size) 0 MI_MAX_ARENAS with
    | some v =>
      obtain ⟨i, p, z, lg, mid, ar⟩ := v
      simp only [hp1] at hos
      exact absurd hos (by simp)
    | none =>
      simp only [hp1] at hos ⊢
      cases hp2 : arena_pass slots numa_node false (large_arg.getD false)
          (mi_block_count_of_size size) 0 MI_MAX_ARENAS with
      | some v =>
        obtain ⟨i, p, z, lg, mid, ar⟩ := v
        simp only [hp2] at hos
        exact absurd hos (by simp)
      | none =>
        simp only [hp2]
        exact ⟨trivial, trivial, trivial⟩
  · rw [if_neg he]
    exact ⟨rfl, rfl, rfl⟩

/-- Witness for claim C9: a one-byte large-page request with an empty registry
falls back to the OS with the large flag replaced by the option value. -/
theorem os_fallback_postconditions_witness :
    ((_mi_arena_alloc_aligned [] 0 true none 1 1 false (some true)).os_called
        = true) ∧
    ((_mi_arena_alloc_aligned [] 0 true none 1 1 false (some true)).memid
        = MI_MEMID_OS ∧
     (_mi_arena_alloc_aligned [] 0 true none 1 1 false (some true)).is_zero
        = true ∧
     (_mi_arena_alloc_aligned [] 0 true none 1 1 false (some true)).large =
       (if (some true : Option Bool).getD false then true
        else (some true : Option Bool).getD false)) :=
  ⟨by decide,
   os_fallback_postconditions [] 0 true none 1 1 false (some true) (by decide)⟩

/-- The interleave loop returns the first non-zero error code along the call
trace it would perform. -/
theorem interleave_go_eq_firstErr (errf : Nat → Nat → Nat → Nat)
    (per md t : Nat) :
    ∀ (fuel node pages : Nat),
      interleave_go errf per md t fuel node pages =
      firstErr errf (interleave_calls_go per md t fuel node pages) := by
  intro fuel
  induction fuel with
  | zero => intro node pages; rfl
  | succ fuel ih =>
    intro node pages
    simp only [interleave_go, interleave_calls_go]
    by_cases hp : pages = 0
    · rw [if_pos hp, if_pos hp]; rfl
    · rw [if_neg hp, if_neg hp, firstErr]
      by_cases he : errf node (if node < md then per + 1 else per) t = 0
      · rw [if_neg (fun hne => hne he), if_pos he]
        exact ih (node + 1) _
      · rw [if_pos he, if_neg he]

/-- Closed form of the interleave call trace: starting at node with the loop
invariant on the remaining page budget, the remaining calls are one per node
index in increasing order up to md (when the per-node share is zero) or up to
K (otherwise), each requesting per+1 pages below the remainder md and per
pages at or above it. -/
theorem interleave_calls_go_spec (per md t K : Nat) (hmdK : md ≤ K) :
    ∀ (fuel node pages : Nat), node + fuel = K →
      pages = fuel * per + (md - node) →
      interleave_calls_go per md t fuel node pages =
      (List.range' node ((if per = 0 then md else K) - node)).map
        (fun i => (i, (if i < md then per + 1 else per), t)) := by
  intro fuel
  induction fuel with
  | zero =>
    intro node pages hnode hpages
    have hN : (if per = 0 then md else K) - node = 0 := by
      split <;> omega
    rw [hN]
    simp [interleave_calls_go]
  | succ fuel ih =>
    intro node pages hnode hpages
    rcases Nat.eq_zero_or_pos per with hper | hper
    · subst hper
      simp only [Nat.mul_zero, Nat.zero_add] at hpages
      have hifmd : (if (0 : Nat) = 0 then md else K) = md := if_pos rfl
      rw [hifmd] at ih ⊢
      simp only [interleave_calls_go]
      by_cases hp : pages = 0
      · rw [if_pos hp]
        have hmn : md - node = 0 := by omega
        rw [hmn]
        simp
      · rw [if_neg hp]
        have hnm : node < md := by omega
        rw [if_pos hnm]
        have hplt : ¬ pages < 0 + 1 := by omega
        rw [if_neg hplt]
        rw [ih (node + 1) (pages - (0 + 1)) (by omega)
          (by simp only [Nat.mul_zero, Nat.zero_add]; omega)]
        have hlen : md - node = (md - (node + 1)) + 1 := by omega
        rw [hlen, List.range'_succ, List.map_cons, if_pos hnm]
    · have hperne : ¬ per = 0 := by omega
      simp only [if_neg hperne] at ih ⊢
      simp only [interleave_calls_go]
      rw [Nat.succ_mul] at hpages
      have hnodeK : node < K := by omega
      by_cases hnm : node < md
      · have hnp_le : per + 1 ≤ pages := by
          rw [hpages]
          calc per + 1 ≤ per + (md - node) := by omega
            _ ≤ fuel * per + (per + (md - node)) := Nat.le_add_left _ _
            _ = fuel * per + per + (md - node) := by rw [Nat.add_assoc]
        have hp : ¬ pages = 0 := by omega
        rw [if_neg hp, if_pos hnm]
        have hplt : ¬ pages < per + 1 := by omega
        rw [if_neg hplt]
        have hinv : pages - (per + 1) = fuel * per + (md - (node + 1)) := by
          rw [hpages]
          have hsub : per + (md - node) - (per + 1) = md - (node + 1) := by omega
          calc fuel * per + per + (md - node) - (per + 1)
              = fuel * per + (per + (md - node)) - (per + 1) := by
                rw [Nat.add_assoc]
            _ = fuel * per + (per + (md - node) - (per + 1)) := by
                rw [Nat.add_sub_assoc (by omega)]
            _ = fuel * per + (md - (node + 1)) := by rw [hsub]
        rw [ih (node + 1) (pages - (per + 1)) (by omega) hinv]
        have hlen : K - node = (K - (node + 1)) + 1 := by omega
        rw [hlen, List.range'_succ, List.map_cons, if_pos hnm]
      · have hmd0 : md - node = 0 := by omega
        rw [hmd0, Nat.add_zero] at hpages
        have hnp_le : per ≤ pages := by
          rw [hpages]
          exact Nat.le_add_left per (fuel * per)
        have hp : ¬ pages = 0 := by omega
        rw [if_neg hp, if_neg hnm]
        have hplt : ¬ pages < per := by omega
        rw [if_neg hplt]
        have hinv : pages - per = fuel * per + (md - (node + 1)) := by
          have hmd1 : md - (node + 1) = 0 := by omega
          rw [hmd1, Nat.add_zero, hpages, Nat.add_sub_cancel]
        rw [ih (node + 1) (pages - per) (by omega) hinv]
        have hlen : K - node = (K - (node + 1)) + 1 := by omega
        rw [hlen, List.range'_succ, List.map_cons, if_neg hnm]

/-- Sum of the per-node page assignments over the first N nodes. -/
theorem interleave_amt_sum (per md : Nat) :
    ∀ N, ((List.range N).map (fun i => if i < md then per + 1 else per)).sum =
      N * per + (md - (md - N)) := by
  intro N
  induction N with
  | zero => simp
  | succ n ih =>
    rw [List.range_succ, List.map_append, List.sum_append, ih]
    simp only [List.map_cons, List.map_nil, List.sum_cons, List.sum_nil]
    rw [Nat.succ_mul]
    generalize n * per = q
    by_cases h : n < md
    · rw [if_pos h]
      omega
    · rw [if_neg h]
      omega

/-- Claim C4: for a positive page budget P and node count K, the interleave
driver calls the per-node reservation once per node in increasing node order;
the call for node i requests floor(P/K)+1 pages when i < P mod K and
floor(P/K) pages otherwise, with timeout timeout/K + 50 for every node; the
requested pages sum to P (nodes beyond the trace would have requested 0); and
the driver returns the first non-zero per-node error, 0 when none fails. -/
theorem interleave_fairness (pages timeout numa_node_count : Nat)
    (hp : 1 ≤ pages) (hK : 1 ≤ numa_node_count) :
    (∀ i, i < (mi_interleave_calls numa_node_count pages timeout).length →
      (mi_interleave_calls numa_node_count pages timeout).getD i (0, 0, 0) =
        (i, (if i < pages % numa_node_count then pages / numa_node_count + 1
             else pages / numa_node_count),
         timeout / numa_node_count + 50)) ∧
    ((mi_interleave_calls numa_node_count pages timeout).map
        (fun c => c.2.1)).sum = pages ∧
    (∀ i, (mi_interleave_calls numa_node_count pages timeout).length ≤ i →
      i < numa_node_count →
      (if i < pages % numa_node_count then pages / numa_node_count + 1
       else pages / numa_node_count) = 0) ∧
    (∀ errf, mi_reserve_huge_os_pages_interleave errf numa_node_count pages
        timeout =
      firstErr errf (mi_interleave_calls numa_node_count pages timeout)) := by
  have hKne : ¬ numa_node_count = 0 := by omega
  have hpne : ¬ pages = 0 := by omega
  have hmdlt : pages % numa_node_count < numa_node_count :=
    Nat.mod_lt _ (by omega)
  have hdm : numa_node_count * (pages / numa_node_count) +
      pages % numa_node_count = pages := Nat.div_add_mod pages numa_node_count
  have hcalls : mi_interleave_calls numa_node_count pages timeout =
      (List.range' 0 (if pages / numa_node_count = 0
          then pages % numa_node_count else numa_node_count)).map
        (fun i => (i, (if i < pages % numa_node_count
            then pages / numa_node_count + 1 else pages / numa_node_count),
          timeout / numa_node_count + 50)) := by
    unfold mi_interleave_calls
    rw [if_neg hpne]
    simp only [hKne, if_false, ite_false]
    rw [interleave_calls_go_spec (pages / numa_node_count)
      (pages % numa_node_count) (timeout / numa_node_count + 50)
      numa_node_count (by omega) numa_node_count 0 pages (by omega)
      (by rw [Nat.sub_zero]; exact hdm.symm)]
    rw [Nat.sub_zero]
  refine ⟨?_, ?_, ?_, ?_⟩
  · intro i hi
    rw [hcalls] at hi ⊢
    rw [List.length_map, List.length_range'] at hi
    rw [List.getD_eq_getElem?_getD, List.getElem?_map,
      List.getElem?_range' 0 1 hi]
    simp
  · rw [hcalls, ← List.range_eq_range', List.map_map]
    have hmap : ((fun c : Nat × Nat × Nat => c.2.1) ∘
        (fun i => (i, (if i < pages % numa_node_count
            then pages / numa_node_count + 1 else pages / numa_node_count),
          timeout / numa_node_count + 50))) =
        (fun i => if i < pages % numa_node_count
            then pages / numa_node_count + 1 else pages / numa_node_count) := rfl
    rw [hmap, interleave_amt_sum]
    by_cases hper0 : pages / numa_node_count = 0
    · rw [if_pos hper0]
      rw [hper0] at hdm ⊢
      simp at hdm ⊢
      omega
    · rw [if_neg hper0]
      have hsk : pages % numa_node_count -
          (pages % numa_node_count - numa_node_count) = pages % numa_node_count := by
        omega
      rw [hsk]
      exact hdm
  · intro i hlen hiK
    rw [hcalls, List.length_map, List.length_range'] at hlen
    by_cases hper0 : pages / numa_node_count = 0
    · rw [if_pos hper0] at hlen
      rw [if_neg (by omega), hper0]
    · rw [if_neg hper0] at hlen
      omega
  · intro errf
    unfold mi_reserve_huge_os_pages_interleave mi_interleave_calls
    rw [if_neg hpne, if_neg hpne]
    simp only [hKne, if_false, ite_false]
    exact interleave_go_eq_firstErr errf (pages / numa_node_count)
      (pages % numa_node_count) (timeout / numa_node_count + 50)
      numa_node_count 0 pages


/-- Witness for claim C4: five pages over two NUMA nodes with a 100 ms
timeout budget. -/
theorem interleave_fairness_witness :
    (1 ≤ 5 ∧ 1 ≤ 2) ∧
    ((∀ i, i < (mi_interleave_calls 2 5 100).length →
      (mi_interleave_calls 2 5 100).getD i (0, 0, 0) =
        (i, (if i < 5 % 2 then 5 / 2 + 1 else 5 / 2), 100 / 2 + 50)) ∧
    ((mi_interleave_calls 2 5 100).map (fun c => c.2.1)).sum = 5 ∧
    (∀ i, (mi_interleave_calls 2 5 100).length ≤ i → i < 2 →
      (if i < 5 % 2 then 5 / 2 + 1 else 5 / 2) = 0) ∧
    (∀ errf, mi_reserve_huge_os_pages_interleave errf 2 5 100 =
      firstErr errf (mi_interleave_calls 2 5 100))) :=
  ⟨⟨by decide, by decide⟩, interleave_fairness 5 100 2 (by decide) (by decide)⟩

end MimallocArena
